import Mathlib

/-!
Verification of the fastsecret schema-migration tool.

Shallow embedding of the core modules:
* the DDL parser's statement splitting (`parseSchema`, src/unnamed/part_001),
* the schema model and differ (`diffSchemas` / `diffTables`, src/unnamed/part_002),
* the migration loader (`MigrationLoader`, src/src/core/migration/loader.ts),
* the migration executor (`MigrationExecutor`, src/src/core/migration/executor.ts).

Strings handled character by character are embedded as `List Char`;
database and filesystem effects are embedded as explicit traces of
statements, with an oracle describing which queries the database accepts.
-/

namespace Fastsecret

/-! ## Statement splitting of `parseSchema` (src/unnamed/part_001, lines 44-70)

`parseSchema` starts from `sqlContent.split(';').map(trim).filter(...)`.
`jsSplit` embeds JavaScript `String.prototype.split` with a one-character
separator: it cuts at every occurrence of the separator, keeping empty
pieces (`''.split(';')` is `['']`). -/

def jsSplit (sep : Char) : List Char → List (List Char)
  | [] => [[]]
  | c :: rest =>
    match jsSplit sep rest with
    | [] => [[]]
    | h :: t => if c = sep then [] :: h :: t else (c :: h) :: t

/-- JavaScript `String.prototype.trim`: drop whitespace from both ends. -/
def trimChars (l : List Char) : List Char :=
  ((l.dropWhile Char.isWhitespace).reverse.dropWhile Char.isWhitespace).reverse

/-- Embeds `stmt.startsWith('--')` on a character list. -/
def startsWithDashDash : List Char → Bool
  | '-' :: '-' :: _ => true
  | _ => false

/-- The statement-splitting pipeline of `parseSchema` (src/unnamed/part_001,
lines 46-49): split the input on every `;`, trim each piece, and keep the
pieces that are nonempty and do not start with `--`. -/
def parseSchemaStatements (sqlContent : List Char) : List (List Char) :=
  ((jsSplit ';' sqlContent).map trimChars).filter
    (fun stmt => decide (0 < stmt.length) && ! startsWithDashDash stmt)

/-! ## Schema model (src/unnamed/part_001) and differ (src/unnamed/part_002)

The differ builds `new Map(list.map(x => [x.name, x]))` and iterates it.
Under the system-wide invariant that table names and column names within a
table are unique (spec §3), a JavaScript `Map` built from such a list is
exactly the association list itself, looked up with `List.lookup`; the
embedding below uses that association list directly. -/

structure SchemaColumn where
  name : String
  type : String
  nullable : Bool
  primaryKey : Bool
  defaultValue : Option String
  deriving DecidableEq, Repr

structure IndexDefinition where
  name : String
  columns : List String
  unique : Bool
  deriving DecidableEq, Repr

structure ConstraintDefinition where
  name : String
  type : String
  columns : List String
  deriving DecidableEq, Repr

structure SchemaTable where
  name : String
  columns : List SchemaColumn
  indexes : List IndexDefinition
  constraints : List ConstraintDefinition
  deriving DecidableEq, Repr

structure ParsedSchema where
  tables : List SchemaTable
  version : String
  timestamp : Nat
  deriving DecidableEq, Repr

structure ColumnDiff where
  columnName : String
  oldType : Option String
  newType : String
  oldNullable : Option Bool
  newNullable : Bool
  defaultChanged : Option Bool
  deriving DecidableEq, Repr

structure TableDiff where
  tableName : String
  newColumns : List SchemaColumn
  droppedColumns : List SchemaColumn
  modifiedColumns : List ColumnDiff
  deriving DecidableEq, Repr

structure SchemaDiff where
  newTables : List SchemaTable
  droppedTables : List SchemaTable
  modifiedTables : List TableDiff
  warnings : List String
  deriving DecidableEq, Repr

/-- Embeds `map.has(k)` on the association list standing for the JS `Map`. -/
def mapHas {α : Type} (m : List (String × α)) (k : String) : Bool :=
  (m.lookup k).isSome

/-- Embedding of `diffTables` (src/unnamed/part_002, lines 80-129): per-table column diff.
The three loops over the desired/current column maps become `filterMap`s over
the corresponding association lists. -/
def diffTables (current desired : SchemaTable) : TableDiff :=
  let currentColMap := current.columns.map fun c => (c.name, c)
  let desiredColMap := desired.columns.map fun c => (c.name, c)
  let newColumns := desiredColMap.filterMap fun p =>
    if mapHas currentColMap p.1 then none else some p.2
  let droppedColumns := currentColMap.filterMap fun p =>
    if mapHas desiredColMap p.1 then none else some p.2
  let modifiedColumns := desiredColMap.filterMap fun p =>
    match currentColMap.lookup p.1 with
    | none => none
    | some currentCol =>
      if currentCol.type != p.2.type || currentCol.nullable != p.2.nullable
          || currentCol.defaultValue != p.2.defaultValue then
        some { columnName := p.1
               oldType := some currentCol.type
               newType := p.2.type
               oldNullable := some currentCol.nullable
               newNullable := p.2.nullable
               defaultChanged := some (currentCol.defaultValue != p.2.defaultValue) }
      else none
  { tableName := current.name
    newColumns := newColumns
    droppedColumns := droppedColumns
    modifiedColumns := modifiedColumns }

/-- Whether `diffSchemas` records a table diff as a modification
(src/unnamed/part_002, lines 60-62). -/
def tableDiffNonempty (td : TableDiff) : Bool :=
  decide (0 < td.newColumns.length) || decide (0 < td.droppedColumns.length)
    || decide (0 < td.modifiedColumns.length)

/-- Embedding of `diffSchemas` (src/unnamed/part_002, lines 29-75).  The drop warnings are
pushed in the same loop that collects dropped tables, the column-loss
warnings in the later loop over common tables, so the warning list is the
drop warnings followed by the column-loss warnings. -/
def diffSchemas (current desired : ParsedSchema) : SchemaDiff :=
  let currentTableMap := current.tables.map fun t => (t.name, t)
  let desiredTableMap := desired.tables.map fun t => (t.name, t)
  let newTables := desiredTableMap.filterMap fun p =>
    if mapHas currentTableMap p.1 then none else some p.2
  let droppedEntries := currentTableMap.filter fun p => ! mapHas desiredTableMap p.1
  let droppedTables := droppedEntries.map fun p => p.2
  let dropWarnings := droppedEntries.map fun p =>
    "Table \x22" ++ p.1 ++ "\x22 will be DROPPED. This is destructive!"
  let modifiedEntries := desiredTableMap.filterMap fun p =>
    match currentTableMap.lookup p.1 with
    | none => none
    | some currentTable =>
      let td := diffTables currentTable p.2
      if tableDiffNonempty td then some (p.1, td) else none
  let lossWarnings := modifiedEntries.filterMap fun q =>
    if 0 < q.2.droppedColumns.length then
      some ("Table \x22" ++ q.1 ++ "\x22 will lose columns: "
        ++ String.intercalate ", " (q.2.droppedColumns.map fun c => c.name))
    else none
  { newTables := newTables
    droppedTables := droppedTables
    modifiedTables := modifiedEntries.map fun q => q.2
    warnings := dropWarnings ++ lossWarnings }

/-! ## Migration loader (src/src/core/migration/loader.ts)

`MigrationLoader.create` receives a name and DDL content, computes the next
version from the directory listing, and returns the `Migration` record.
The SHA-256 hash from node's `crypto` module is external code and is passed
in as an opaque function argument; the filesystem is embedded as the list
of file names in the migrations directory plus a trace of the filesystem
operations performed (`FsOp`).  The code performs none: the body only
builds the record (its own comment reads "In real implementation, would
write to file"). -/

structure Migration where
  name : String
  version : String
  content : String
  checksum : String
  path : String
  deriving DecidableEq, Repr

/-- Filesystem write operations `create` could perform.  The vocabulary
includes the atomic-write protocol of spec §4.5 (temp file, fsync, rename);
the embedded code emits none of them. -/
inductive FsOp where
  | writeFile (path content : String)
  | fsyncFile (path : String)
  | renameFile (fromPath toPath : String)
  deriving DecidableEq, Repr

/-- Embeds the version extraction of loader.ts line 99: the numeric value of the
leading digit run of a file name, `0` if there is none. -/
def leadingVersion (s : String) : Nat :=
  (s.toList.takeWhile Char.isDigit).foldl
    (fun acc c => 10 * acc + (c.toNat - ('0').toNat)) 0

/-- Embedding of `MigrationLoader.getNextVersionNumber` (loader.ts lines 95-106):
one more than the maximum leading version among the directory's files
(`Math.max(0, ...versions) + 1`; the `|| 0` is redundant as the maximum
is never below 0, and the catch branch for an unreadable directory is not
modelled -- the directory listing is a parameter). -/
def getNextVersionNumber (files : List String) : Nat :=
  (files.map leadingVersion).foldl max 0 + 1

/-- Embeds the removal of a trailing `.sql` from a file name (loader.ts line 77). -/
def stripSqlSuffix (s : String) : String :=
  if s.endsWith ".sql" then s.dropRight 4 else s

/-- Embedding of `MigrationLoader.create` (loader.ts lines 66-83).  Returns the built
`Migration` record together with the trace of filesystem writes performed;
the code writes nothing, so the trace is empty. -/
def MigrationLoader.create (hash : String → String) (migrationsDir : String)
    (files : List String) (name content : String) : Migration × List FsOp :=
  let versionNumber := getNextVersionNumber files
  let fileName := toString versionNumber ++ "_" ++ name ++ ".sql"
  let filePath := migrationsDir ++ "/" ++ fileName
  let checksum := hash content
  ({ name := stripSqlSuffix fileName
     version := toString versionNumber
     content := content
     checksum := checksum
     path := filePath }, [])

/-! ## Migration executor (src/src/core/migration/executor.ts)

The database is embedded as
* the current contents of the `atlas_migrations` history table
  (`HistoryRow` list; `getAppliedMigrations` reads it), and
* an oracle (`Db`) saying, for each query the executor may issue, whether
  PostgreSQL rejects it and with which error message (`some msg`) or
  accepts it (`none`).

Every statement the executor sends is recorded in a trace (`Stmt`).
`BEGIN`/`COMMIT`/`ROLLBACK` and the reads are modelled as always
succeeding; the `PREPARE id AS sql; DEALLOCATE id` pair of `validateSQL`
is one `prepareValidate` trace entry (the random statement id carries no
information).  Wall-clock durations and the `onMigration` callback are not
modelled. -/

structure HistoryRow where
  name : String
  checksum : String
  appliedAt : Nat
  deriving DecidableEq, Repr

/-- Database statements the executor can issue.  `advisoryLock` is in the
vocabulary because spec §4.6/§5 talks about a `pg_advisory_lock` call; the
embedded code never emits it. -/
inductive Stmt where
  | ensureTable
  | selectApplied
  | advisoryLock (key : Int)
  | begin
  | prepareValidate (sql : String)
  | execDDL (sql : String)
  | insertHistory (name checksum : String)
  | commit
  | rollbackTx
  | selectLastApplied (count : Nat)
  | deleteHistory (name : String)
  deriving DecidableEq, Repr

/-- Which queries the database rejects, and with what error message. -/
structure Db where
  validateMsg : String → Option String
  execMsg : String → Option String
  insertMsg : String → String → Option String

structure ExecOptions where
  dryRun : Bool
  force : Bool
  deriving DecidableEq, Repr

structure ExecutionResult where
  success : Bool
  migrationsRun : List String
  error : Option String
  deriving DecidableEq, Repr

/-- The error wrapper of executor.ts line 82: the failed migration's name
followed by the underlying message. -/
def failMsg (name inner : String) : String :=
  "Failed to apply " ++ name ++ ": " ++ inner

/-- The per-migration transaction loop of `MigrationExecutor.execute`
(executor.ts lines 59-86): BEGIN, validate via PREPARE, execute the DDL,
insert the history row, COMMIT; on the first rejected query, ROLLBACK and
stop with the wrapped error. -/
def runPending (db : Db) : List Migration → List Stmt × List String × Option String
  | [] => ([], [], none)
  | m :: rest =>
    match db.validateMsg m.content with
    | some e =>
      ([Stmt.begin, Stmt.prepareValidate m.content, Stmt.rollbackTx], [],
        some (failMsg m.name ("Invalid SQL: " ++ e)))
    | none =>
      match db.execMsg m.content with
      | some e =>
        ([Stmt.begin, Stmt.prepareValidate m.content, Stmt.execDDL m.content,
          Stmt.rollbackTx], [], some (failMsg m.name e))
      | none =>
        match db.insertMsg m.name m.checksum with
        | some e =>
          ([Stmt.begin, Stmt.prepareValidate m.content, Stmt.execDDL m.content,
            Stmt.insertHistory m.name m.checksum, Stmt.rollbackTx], [],
            some (failMsg m.name e))
        | none =>
          let r := runPending db rest
          ([Stmt.begin, Stmt.prepareValidate m.content, Stmt.execDDL m.content,
            Stmt.insertHistory m.name m.checksum, Stmt.commit] ++ r.1,
            m.name :: r.2.1, r.2.2)

/-- Embeds `migrations.filter(m => !appliedSet.has(m.name))`
(executor.ts lines 38-43): the pending set is computed by name only. -/
def pendingOf (history : List HistoryRow) (migrations : List Migration) :
    List Migration :=
  let appliedSet := history.map fun r => r.name
  migrations.filter fun m => ! appliedSet.contains m.name

/-- Embedding of `MigrationExecutor.execute` (executor.ts lines 22-99): bootstrap the
history table, read the applied rows, filter pending by name, and either
return (nothing pending), report the dry run, or run the transaction loop. -/
def MigrationExecutor.execute (db : Db) (history : List HistoryRow)
    (migrations : List Migration) (options : ExecOptions) :
    List Stmt × ExecutionResult :=
  let base := [Stmt.ensureTable, Stmt.selectApplied]
  let pending := pendingOf history migrations
  if pending.isEmpty then
    (base, { success := true, migrationsRun := [], error := none })
  else if options.dryRun then
    (base, { success := true, migrationsRun := pending.map fun m => m.name,
             error := none })
  else
    let r := runPending db pending
    (base ++ r.1,
      { success := r.2.2.isNone, migrationsRun := r.2.1, error := r.2.2 })

def executeTrace (db : Db) (history : List HistoryRow)
    (migrations : List Migration) (options : ExecOptions) : List Stmt :=
  (MigrationExecutor.execute db history migrations options).1

def executeResult (db : Db) (history : List HistoryRow)
    (migrations : List Migration) (options : ExecOptions) : ExecutionResult :=
  (MigrationExecutor.execute db history migrations options).2

/-- The query `SELECT name FROM atlas_migrations ORDER BY applied_at DESC`, embedded
as a sort of the history table by `applied_at` descending (PostgreSQL
leaves the order of ties unspecified; the model fixes one). -/
def sortDesc (l : List HistoryRow) : List HistoryRow :=
  l.insertionSort fun a b => b.appliedAt ≤ a.appliedAt

/-- The names `rollback` processes: last `count` rows by `applied_at`
descending, reversed (executor.ts lines 112-117). -/
def rollbackNames (history : List HistoryRow) (count : Nat) : List String :=
  (((sortDesc history).take count).map fun r => r.name).reverse

/-- Embedding of `MigrationExecutor.rollback` (executor.ts lines 104-145): bootstrap,
select the names of the last `count` rows by `applied_at` descending,
reverse them, and delete each row by name in a plain loop.  Returns the
trace, the result, and the final history table.  The `DELETE` statements
are modelled as accepted by the database. -/
def MigrationExecutor.rollback (history : List HistoryRow) (count : Nat) :
    List Stmt × ExecutionResult × List HistoryRow :=
  let toRollback := rollbackNames history count
  let trace := [Stmt.ensureTable, Stmt.selectLastApplied count]
    ++ toRollback.map Stmt.deleteHistory
  let final := toRollback.foldl
    (fun h n => h.filter fun r => ! (r.name == n)) history
  (trace, { success := true, migrationsRun := toRollback, error := none }, final)

def rollbackTrace (history : List HistoryRow) (count : Nat) : List Stmt :=
  (MigrationExecutor.rollback history count).1

def rollbackResult (history : List HistoryRow) (count : Nat) : ExecutionResult :=
  (MigrationExecutor.rollback history count).2.1

def rollbackFinal (history : List HistoryRow) (count : Nat) : List HistoryRow :=
  (MigrationExecutor.rollback history count).2.2

/-- Replay of a statement trace against the history table, with PostgreSQL
transaction semantics: rows inserted after `BEGIN` become visible only at
`COMMIT` and are discarded at `ROLLBACK`; an insert carries `NOW()`, which
the model fixes at 0 as no claim depends on the inserted timestamp. -/
def replay (h buf : List HistoryRow) : List Stmt → List HistoryRow
  | [] => h
  | Stmt.begin :: rest => replay h [] rest
  | Stmt.insertHistory n c :: rest => replay h (buf ++ [⟨n, c, 0⟩]) rest
  | Stmt.commit :: rest => replay (h ++ buf) [] rest
  | Stmt.rollbackTx :: rest => replay h [] rest
  | Stmt.deleteHistory n :: rest =>
      replay (h.filter fun r => ! (r.name == n)) buf rest
  | _ :: rest => replay h buf rest

/-- The statement block of one successfully applied migration
(executor.ts lines 61-75): its own BEGIN .. COMMIT transaction. -/
def successBlock (m : Migration) : List Stmt :=
  [Stmt.begin, Stmt.prepareValidate m.content, Stmt.execDDL m.content,
   Stmt.insertHistory m.name m.checksum, Stmt.commit]

/-- Concatenated transaction blocks of a list of applied migrations. -/
def successBlocks : List Migration → List Stmt
  | [] => []
  | m :: rest => successBlock m ++ successBlocks rest

/-- Whether the database accepts all three queries of a migration's
transaction (validation PREPARE, the DDL itself, the history INSERT). -/
def migAccepted (db : Db) (m : Migration) : Bool :=
  (db.validateMsg m.content).isNone && (db.execMsg m.content).isNone
    && (db.insertMsg m.name m.checksum).isNone

/-- The statement block of a failing migration: the transaction up to the
first rejected query, closed by ROLLBACK. -/
def failBlock (db : Db) (m : Migration) : List Stmt :=
  match db.validateMsg m.content with
  | some _ => [Stmt.begin, Stmt.prepareValidate m.content, Stmt.rollbackTx]
  | none =>
    match db.execMsg m.content with
    | some _ => [Stmt.begin, Stmt.prepareValidate m.content,
        Stmt.execDDL m.content, Stmt.rollbackTx]
    | none =>
      match db.insertMsg m.name m.checksum with
      | some _ => [Stmt.begin, Stmt.prepareValidate m.content,
          Stmt.execDDL m.content, Stmt.insertHistory m.name m.checksum,
          Stmt.rollbackTx]
      | none => []

/-- The error a failing migration produces (executor.ts lines 80-85,
wrapping the `Invalid SQL:` message of `validateSQL` for the PREPARE step). -/
def failErr (db : Db) (m : Migration) : Option String :=
  match db.validateMsg m.content with
  | some e => some (failMsg m.name ("Invalid SQL: " ++ e))
  | none =>
    match db.execMsg m.content with
    | some e => some (failMsg m.name e)
    | none =>
      match db.insertMsg m.name m.checksum with
      | some e => some (failMsg m.name e)
      | none => none

/-- Recognizer for advisory-lock statements in a trace. -/
def isAdvisoryLock : Stmt → Bool
  | Stmt.advisoryLock _ => true
  | _ => false

/-- Recognizer for DDL-execution statements in a trace. -/
def isExecDDL : Stmt → Bool
  | Stmt.execDDL _ => true
  | _ => false

theorem jsSplit_ne_nil (sep : Char) (l : List Char) : jsSplit sep l ≠ [] := by
  cases l with
  | nil => simp [jsSplit]
  | cons c rest =>
    simp only [jsSplit]
    cases h : jsSplit sep rest with
    | nil => simp
    | cons q t => by_cases hc : c = sep <;> simp [hc]

theorem mem_jsSplit_not_mem (sep : Char) (l : List Char) :
    ∀ p ∈ jsSplit sep l, sep ∉ p := by
  induction l with
  | nil => intro p hp; simp [jsSplit] at hp; simp [hp]
  | cons c rest ih =>
    intro p hp
    simp only [jsSplit] at hp
    cases h : jsSplit sep rest with
    | nil => exact absurd h (jsSplit_ne_nil sep rest)
    | cons q t =>
      rw [h] at hp
      have hq : sep ∉ q := ih q (h ▸ List.mem_cons_self q t)
      have ht : ∀ r ∈ t, sep ∉ r := fun r hr => ih r (h ▸ List.mem_cons_of_mem q hr)
      by_cases hc : c = sep
      · simp only [hc, if_pos rfl] at hp
        rcases List.mem_cons.mp hp with rfl | hp2
        · simp
        · rcases List.mem_cons.mp hp2 with rfl | hp3
          · exact hq
          · exact ht p hp3
      · simp only [if_neg hc] at hp
        rcases List.mem_cons.mp hp with rfl | hp2
        · intro hmem
          rcases List.mem_cons.mp hmem with h1 | h1
          · exact hc h1.symm
          · exact hq h1
        · exact ht p hp2

theorem trimChars_sublist (l : List Char) : (trimChars l).Sublist l := by
  unfold trimChars
  have h1 : (l.dropWhile Char.isWhitespace).Sublist l := List.dropWhile_sublist _
  have h2 : ((l.dropWhile Char.isWhitespace).reverse.dropWhile
      Char.isWhitespace).Sublist (l.dropWhile Char.isWhitespace).reverse :=
    List.dropWhile_sublist _
  have h3 := h2.reverse
  simp only [List.reverse_reverse] at h3
  exact h3.trans h1

theorem jsSplit_eq_splitOn (sep : Char) (l : List Char) :
    jsSplit sep l = l.splitOn sep := by
  induction l with
  | nil => rfl
  | cons c rest ih =>
    simp only [jsSplit, ih]
    cases h : rest.splitOn sep with
    | nil => exact absurd h (List.splitOnP_ne_nil _ rest)
    | cons q t =>
      have hs : rest.splitOnP (fun x => x == sep) = q :: t := h
      by_cases hc : c = sep
      · simp [List.splitOn, List.splitOnP_cons, hc, hs]
      · have hcb : (c == sep) = false := by simp [hc]
        simp [List.splitOn, List.splitOnP_cons, hcb, hs, if_neg hc]

/-- Splitting at every separator loses nothing: putting `;` back between the
raw pieces restores the input. -/
theorem jsSplit_intercalate (sql : List Char) :
    List.intercalate [';'] (jsSplit ';' sql) = sql := by
  rw [jsSplit_eq_splitOn]
  exact List.intercalate_splitOn sql ';'

/-- C7, as stated, is false: the statement splitter of `parseSchema` cuts at
every `;`, including one inside a line comment that itself sits inside the
parenthesized column list.  A splitter that ignored comments and respected
parentheses would return this input as a single statement; the code returns
two pieces, the second of which even starts inside the comment text. -/
theorem c7_counterexample :
    (parseSchemaStatements
        ("CREATE TABLE t (i INTEGER -- x; y\n)").toList).length = 2 ∧
      parseSchemaStatements ("CREATE TABLE t (i INTEGER -- x; y\n)").toList ≠
        [trimChars ("CREATE TABLE t (i INTEGER -- x; y\n)").toList] := by
  constructor
  · rfl
  · decide

/-- C7 amended: the parser splits the DDL text on every `;` irrespective of
quoting, parentheses, or comments (so the pieces never contain `;` at all,
and concatenating the raw pieces with `;` restores the input); each kept
statement is nonempty after trimming and does not start with `--`. -/
theorem c7_amended (sql : List Char) :
    List.intercalate [';'] (jsSplit ';' sql) = sql ∧
      ∀ stmt ∈ parseSchemaStatements sql,
        ';' ∉ stmt ∧ 0 < stmt.length ∧ startsWithDashDash stmt = false := by
  refine ⟨jsSplit_intercalate sql, ?_⟩
  intro stmt hstmt
  unfold parseSchemaStatements at hstmt
  have hmem := List.mem_of_mem_filter hstmt
  have hfilt := List.of_mem_filter hstmt
  simp only [Bool.and_eq_true, decide_eq_true_eq, Bool.not_eq_true'] at hfilt
  rcases List.mem_map.mp hmem with ⟨raw, hraw, hrw⟩
  refine ⟨?_, hfilt.1, hfilt.2⟩
  intro hsemi
  exact mem_jsSplit_not_mem ';' sql raw hraw
    ((hrw ▸ (trimChars_sublist raw).subset) hsemi)

/-- Witness for `c7_amended` at a concrete input and statement. -/
theorem c7_amended_witness :
    (("CREATE TABLE a (i INTEGER)").toList ∈
        parseSchemaStatements ("CREATE TABLE a (i INTEGER); -- done\n").toList) ∧
      (';' ∉ ("CREATE TABLE a (i INTEGER)").toList ∧
        0 < ("CREATE TABLE a (i INTEGER)").toList.length ∧
        startsWithDashDash ("CREATE TABLE a (i INTEGER)").toList = false) :=
  ⟨by decide,
    (c7_amended ("CREATE TABLE a (i INTEGER); -- done\n").toList).2
      ("CREATE TABLE a (i INTEGER)").toList (by decide)⟩

theorem mapHas_of_mem {α : Type} (m : List (String × α)) (p : String × α)
    (hp : p ∈ m) : mapHas m p.1 = true := by
  induction m with
  | nil => cases hp
  | cons q rest ih =>
    rcases List.mem_cons.mp hp with rfl | hp2
    · simp [mapHas, List.lookup]
    · by_cases hk : p.1 == q.1
      · simp [mapHas, List.lookup, hk]
      · simpa [mapHas, List.lookup, hk] using ih hp2

theorem lookup_of_nodup_mem {α : Type} (m : List (String × α))
    (hm : (m.map Prod.fst).Nodup) (k : String) (v : α) (hv : (k, v) ∈ m) :
    m.lookup k = some v := by
  induction m with
  | nil => cases hv
  | cons q rest ih =>
    simp only [List.map_cons, List.nodup_cons] at hm
    rcases List.mem_cons.mp hv with h | h
    · rw [← h]
      simp [List.lookup]
    · have hk : k ≠ q.1 := by
        intro hkq
        exact hm.1 (hkq ▸ (List.mem_map.mpr ⟨(k, v), h, rfl⟩))
      have hkb : (k == q.1) = false := by simp [hk]
      simp only [List.lookup, hkb]
      exact ih hm.2 h

/-- A table diffed against itself (with column names unique within the
table, spec §3) yields an empty table diff. -/
theorem diffTables_self (t : SchemaTable)
    (h : (t.columns.map fun c => c.name).Nodup) :
    diffTables t t =
      { tableName := t.name, newColumns := [], droppedColumns := [],
        modifiedColumns := [] } := by
  have hkeys : ((t.columns.map fun c => (c.name, c)).map Prod.fst).Nodup := by
    rw [List.map_map]
    exact h
  simp only [diffTables]
  congr 1
  · rw [List.filterMap_eq_nil_iff]
    intro p hp
    simp [mapHas_of_mem _ p hp]
  · rw [List.filterMap_eq_nil_iff]
    intro p hp
    simp [mapHas_of_mem _ p hp]
  · rw [List.filterMap_eq_nil_iff]
    intro p hp
    have hpv : p = (p.2.name, p.2) := by
      rcases List.mem_map.mp hp with ⟨c, _, rfl⟩
      rfl
    have hl : (t.columns.map fun c => (c.name, c)).lookup p.1 = some p.2 := by
      rw [hpv]
      exact lookup_of_nodup_mem _ hkeys p.2.name p.2 (hpv ▸ hp)
    simp [hl]

/-- C8: diff identity.  For every valid schema `S` (table names unique, and
column names unique within each table, as spec §3 requires of every schema
model), `diffSchemas S S` has no new tables, no dropped tables, no modified
tables and no warnings. -/
theorem c8_diff_identity (S : ParsedSchema)
    (hT : (S.tables.map fun t => t.name).Nodup)
    (hC : ∀ t ∈ S.tables, (t.columns.map fun c => c.name).Nodup) :
    diffSchemas S S =
      { newTables := [], droppedTables := [], modifiedTables := [],
        warnings := [] } := by
  have hkeys : ((S.tables.map fun t => (t.name, t)).map Prod.fst).Nodup := by
    rw [List.map_map]
    exact hT
  have hdropped : (S.tables.map fun t => (t.name, t)).filter
      (fun p => ! mapHas (S.tables.map fun t => (t.name, t)) p.1) = [] := by
    rw [List.filter_eq_nil_iff]
    intro p hp
    simp [mapHas_of_mem _ p hp]
  have hmod : ∀ p ∈ S.tables.map fun t => (t.name, t),
      (match (S.tables.map fun t => (t.name, t)).lookup p.1 with
        | none => none
        | some currentTable =>
          if tableDiffNonempty (diffTables currentTable p.2) then
            some (p.1, diffTables currentTable p.2)
          else none) = (none : Option (String × TableDiff)) := by
    intro p hp
    rcases List.mem_map.mp hp with ⟨t, ht, rfl⟩
    have hl : (S.tables.map fun t => (t.name, t)).lookup t.name = some t :=
      lookup_of_nodup_mem _ hkeys t.name t (List.mem_map.mpr ⟨t, ht, rfl⟩)
    have hdt := diffTables_self t (hC t ht)
    simp [hl, hdt, tableDiffNonempty]
  simp only [diffSchemas]
  congr 1
  · rw [List.filterMap_eq_nil_iff]
    intro p hp
    simp [mapHas_of_mem _ p hp]
  · rw [hdropped]
    rfl
  · rw [List.map_eq_nil_iff, List.filterMap_eq_nil_iff]
    exact hmod
  · rw [List.append_eq_nil]
    constructor
    · rw [hdropped]
      rfl
    · have : (S.tables.map fun t => (t.name, t)).filterMap
          (fun p => match (S.tables.map fun t => (t.name, t)).lookup p.1 with
            | none => none
            | some currentTable =>
              if tableDiffNonempty (diffTables currentTable p.2) then
                some (p.1, diffTables currentTable p.2)
              else none) = [] := by
        rw [List.filterMap_eq_nil_iff]
        exact hmod
      rw [this]
      rfl

/-- Witness for `c8_diff_identity` on a concrete two-table schema. -/
theorem c8_diff_identity_witness :
    ((ParsedSchema.mk
        [SchemaTable.mk "users"
          [SchemaColumn.mk "id" "INTEGER" false true none,
           SchemaColumn.mk "email" "TEXT" false false none] [] [],
         SchemaTable.mk "posts"
          [SchemaColumn.mk "id" "INTEGER" false true none,
           SchemaColumn.mk "user_id" "INTEGER" true false none] [] []]
        "1.0" 0).tables.map fun t => t.name).Nodup ∧
      diffSchemas
        (ParsedSchema.mk
          [SchemaTable.mk "users"
            [SchemaColumn.mk "id" "INTEGER" false true none,
             SchemaColumn.mk "email" "TEXT" false false none] [] [],
           SchemaTable.mk "posts"
            [SchemaColumn.mk "id" "INTEGER" false true none,
             SchemaColumn.mk "user_id" "INTEGER" true false none] [] []]
          "1.0" 0)
        (ParsedSchema.mk
          [SchemaTable.mk "users"
            [SchemaColumn.mk "id" "INTEGER" false true none,
             SchemaColumn.mk "email" "TEXT" false false none] [] [],
           SchemaTable.mk "posts"
            [SchemaColumn.mk "id" "INTEGER" false true none,
             SchemaColumn.mk "user_id" "INTEGER" true false none] [] []]
          "1.0" 0) =
        { newTables := [], droppedTables := [], modifiedTables := [],
          warnings := [] } :=
  ⟨by decide,
    c8_diff_identity _ (by decide) (by decide)⟩

/-- Membership in `(diffTables current desired).modifiedColumns`, unfolded to
the loop that produces it. -/
theorem mem_modifiedColumns (current desired : SchemaTable) (d : ColumnDiff) :
    d ∈ (diffTables current desired).modifiedColumns ↔
      ∃ c ∈ desired.columns, ∃ col,
        (current.columns.map fun x => (x.name, x)).lookup c.name = some col ∧
        (col.type != c.type || col.nullable != c.nullable
          || col.defaultValue != c.defaultValue) = true ∧
        d = ColumnDiff.mk c.name (some col.type) c.type (some col.nullable)
              c.nullable (some (col.defaultValue != c.defaultValue)) := by
  simp only [diffTables, List.mem_filterMap, List.mem_map]
  constructor
  · rintro ⟨p, ⟨c, hc, rfl⟩, hf⟩
    cases hl : (current.columns.map fun x => (x.name, x)).lookup c.name with
    | none => simp [hl] at hf
    | some col =>
      simp only [hl] at hf
      by_cases hcond : (col.type != c.type || col.nullable != c.nullable
          || col.defaultValue != c.defaultValue) = true
      · rw [if_pos hcond] at hf
        exact ⟨c, hc, col, hl, hcond, (Option.some.inj hf).symm⟩
      · rw [if_neg hcond] at hf
        cases hf
  · rintro ⟨c, hc, col, hl, hcond, rfl⟩
    refine ⟨(c.name, c), ⟨c, hc, rfl⟩, ?_⟩
    simp only [hl]
    rw [if_pos hcond]

/-- C6, as stated, is false: a column whose only change between the two
versions of the table is its primary-key participation flag is not
classified as modified by `diffTables` -- the code compares only type,
nullability and default value.  Concretely, column `id` of table `users`
goes from `PRIMARY KEY` to non-primary-key and `modifiedColumns` is empty. -/
theorem c6_counterexample :
    ((SchemaTable.mk "users" [SchemaColumn.mk "id" "INTEGER" false true none]
          [] []).columns.map fun c => c.primaryKey) ≠
        ((SchemaTable.mk "users" [SchemaColumn.mk "id" "INTEGER" false false none]
          [] []).columns.map fun c => c.primaryKey) ∧
      (diffTables
          (SchemaTable.mk "users" [SchemaColumn.mk "id" "INTEGER" false true none]
            [] [])
          (SchemaTable.mk "users" [SchemaColumn.mk "id" "INTEGER" false false none]
            [] [])).modifiedColumns = [] := by
  constructor
  · decide
  · rfl

/-- C6 amended: for a column name present in both versions of a table (with
unique column names), the differ classifies the column as modified iff at
least one of type, nullability, or default value differs -- each compared
verbatim, and the primary-key flag not compared at all; the modification
record carries the old and new type and nullability, and for the default
only a boolean `defaultChanged` flag, not the old and new values. -/
theorem c6_amended (current desired : SchemaTable) (cc dc : SchemaColumn)
    (hnc : (current.columns.map fun c => c.name).Nodup)
    (hnd : (desired.columns.map fun c => c.name).Nodup)
    (hcc : cc ∈ current.columns) (hdc : dc ∈ desired.columns)
    (hname : cc.name = dc.name) :
    ((∃ d ∈ (diffTables current desired).modifiedColumns, d.columnName = dc.name)
        ↔ (cc.type ≠ dc.type ∨ cc.nullable ≠ dc.nullable
            ∨ cc.defaultValue ≠ dc.defaultValue))
      ∧ ∀ d ∈ (diffTables current desired).modifiedColumns, d.columnName = dc.name →
          d = ColumnDiff.mk dc.name (some cc.type) dc.type (some cc.nullable)
                dc.nullable (some (cc.defaultValue != dc.defaultValue)) := by
  have hkeysC : ((current.columns.map fun x => (x.name, x)).map Prod.fst).Nodup := by
    rw [List.map_map]
    exact hnc
  have hlcc : (current.columns.map fun x => (x.name, x)).lookup dc.name = some cc := by
    rw [← hname]
    exact lookup_of_nodup_mem _ hkeysC cc.name cc (List.mem_map.mpr ⟨cc, hcc, rfl⟩)
  have hdescr : ∀ d ∈ (diffTables current desired).modifiedColumns,
      d.columnName = dc.name →
        d = ColumnDiff.mk dc.name (some cc.type) dc.type (some cc.nullable)
              dc.nullable (some (cc.defaultValue != dc.defaultValue)) := by
    intro d hd hcol
    rcases (mem_modifiedColumns current desired d).mp hd with
      ⟨c, hc, col, hl, hcond, rfl⟩
    have hceq : c = dc := by
      have : c.name = dc.name := hcol
      exact List.inj_on_of_nodup_map hnd hc hdc this
    subst hceq
    rw [hl] at hlcc
    rw [Option.some.inj hlcc]
  refine ⟨⟨?_, ?_⟩, hdescr⟩
  · rintro ⟨d, hd, hcol⟩
    have hde := hdescr d hd hcol
    rcases (mem_modifiedColumns current desired d).mp hd with
      ⟨c, hc, col, hl, hcond, rfl⟩
    have hceq : c = dc := List.inj_on_of_nodup_map hnd hc hdc hcol
    subst hceq
    rw [hl] at hlcc
    rw [Option.some.inj hlcc] at hcond
    simpa [Bool.or_eq_true, bne_iff_ne, or_assoc] using hcond
  · intro hdiff
    refine ⟨ColumnDiff.mk dc.name (some cc.type) dc.type (some cc.nullable)
        dc.nullable (some (cc.defaultValue != dc.defaultValue)), ?_, rfl⟩
    rw [mem_modifiedColumns]
    refine ⟨dc, hdc, cc, hlcc, ?_, rfl⟩
    simpa [Bool.or_eq_true, bne_iff_ne, or_assoc] using hdiff

/-- Witness for `c6_amended`: a column whose type widens from
`VARCHAR(50)` to `TEXT` is reported as modified with old and new values. -/
theorem c6_amended_witness :
    ((SchemaColumn.mk "email" "VARCHAR(50)" false false none ∈
        [SchemaColumn.mk "email" "VARCHAR(50)" false false none]) ∧
      (SchemaColumn.mk "email" "TEXT" false false none ∈
        [SchemaColumn.mk "email" "TEXT" false false none])) ∧
      ((∃ d ∈ (diffTables
            (SchemaTable.mk "users"
              [SchemaColumn.mk "email" "VARCHAR(50)" false false none] [] [])
            (SchemaTable.mk "users"
              [SchemaColumn.mk "email" "TEXT" false false none] [] [])).modifiedColumns,
          d.columnName = "email")
        ↔ ("VARCHAR(50)" ≠ "TEXT" ∨ false ≠ false
            ∨ (none : Option String) ≠ none)) := by
  refine ⟨⟨by decide, by decide⟩, ?_⟩
  have h := c6_amended
    (SchemaTable.mk "users"
      [SchemaColumn.mk "email" "VARCHAR(50)" false false none] [] [])
    (SchemaTable.mk "users"
      [SchemaColumn.mk "email" "TEXT" false false none] [] [])
    (SchemaColumn.mk "email" "VARCHAR(50)" false false none)
    (SchemaColumn.mk "email" "TEXT" false false none)
    (by decide) (by decide) (by decide) (by decide) rfl
  exact h.1

/-! ## Loader and executor theorems -/

/-- C3 describes the spec's intended behavior, but `MigrationLoader.create`
is a stub: it allocates the next version, builds the file name, path and
SHA-256 checksum, and performs **no** filesystem operation whatsoever -- no
temporary file, no fsync, no rename -- so after `create` returns, no file
exists at the returned path.  The code's own comment reads "In real
implementation, would write to file". -/
theorem c3_create_writes_nothing (hash : String → String) (dir : String)
    (files : List String) (name content : String) :
    (MigrationLoader.create hash dir files name content).2 = [] ∧
      (MigrationLoader.create hash dir files name content).1.checksum
        = hash content ∧
      (MigrationLoader.create hash dir files name content).1.version
        = toString (getNextVersionNumber files) ∧
      (MigrationLoader.create hash dir files name content).1.path
        = dir ++ "/" ++ (toString (getNextVersionNumber files) ++ "_"
            ++ name ++ ".sql") :=
  ⟨rfl, rfl, rfl, rfl⟩

/-- Every statement `runPending` issues is transaction control or concerns
one of the migrations of its input list. -/
theorem runPending_trace_shape (db : Db) (l : List Migration) :
    ∀ s ∈ (runPending db l).1,
      (s = Stmt.begin ∨ s = Stmt.commit ∨ s = Stmt.rollbackTx) ∨
        ∃ m ∈ l, s = Stmt.prepareValidate m.content ∨ s = Stmt.execDDL m.content
          ∨ s = Stmt.insertHistory m.name m.checksum := by
  induction l with
  | nil => intro s hs; simp [runPending] at hs
  | cons m rest ih =>
    intro s hs
    simp only [runPending] at hs
    cases hv : db.validateMsg m.content with
    | some e =>
      rw [hv] at hs
      simp only [List.mem_cons, List.not_mem_nil, or_false] at hs
      rcases hs with rfl | rfl | rfl
      · exact Or.inl (Or.inl rfl)
      · exact Or.inr ⟨m, List.mem_cons_self m rest, Or.inl rfl⟩
      · exact Or.inl (Or.inr (Or.inr rfl))
    | none =>
      rw [hv] at hs
      cases he : db.execMsg m.content with
      | some e =>
        rw [he] at hs
        simp only [List.mem_cons, List.not_mem_nil, or_false] at hs
        rcases hs with rfl | rfl | rfl | rfl
        · exact Or.inl (Or.inl rfl)
        · exact Or.inr ⟨m, List.mem_cons_self m rest, Or.inl rfl⟩
        · exact Or.inr ⟨m, List.mem_cons_self m rest, Or.inr (Or.inl rfl)⟩
        · exact Or.inl (Or.inr (Or.inr rfl))
      | none =>
        rw [he] at hs
        cases hi : db.insertMsg m.name m.checksum with
        | some e =>
          rw [hi] at hs
          simp only [List.mem_cons, List.not_mem_nil, or_false] at hs
          rcases hs with rfl | rfl | rfl | rfl | rfl
          · exact Or.inl (Or.inl rfl)
          · exact Or.inr ⟨m, List.mem_cons_self m rest, Or.inl rfl⟩
          · exact Or.inr ⟨m, List.mem_cons_self m rest, Or.inr (Or.inl rfl)⟩
          · exact Or.inr ⟨m, List.mem_cons_self m rest, Or.inr (Or.inr rfl)⟩
          · exact Or.inl (Or.inr (Or.inr rfl))
        | none =>
          rw [hi] at hs
          simp only [List.cons_append, List.nil_append, List.mem_cons] at hs
          rcases hs with rfl | rfl | rfl | rfl | rfl | hs
          · exact Or.inl (Or.inl rfl)
          · exact Or.inr ⟨m, List.mem_cons_self m rest, Or.inl rfl⟩
          · exact Or.inr ⟨m, List.mem_cons_self m rest, Or.inr (Or.inl rfl)⟩
          · exact Or.inr ⟨m, List.mem_cons_self m rest, Or.inr (Or.inr rfl)⟩
          · exact Or.inl (Or.inr (Or.inl rfl))
          · rcases ih s hs with h | ⟨m2, hm2, h2⟩
            · exact Or.inl h
            · exact Or.inr ⟨m2, List.mem_cons_of_mem m hm2, h2⟩

/-- Every name `runPending` reports as run belongs to a migration of its
input list. -/
theorem runPending_runs_names (db : Db) (l : List Migration) :
    ∀ x ∈ (runPending db l).2.1, ∃ m ∈ l, x = m.name := by
  induction l with
  | nil => intro x hx; simp [runPending] at hx
  | cons m rest ih =>
    intro x hx
    simp only [runPending] at hx
    cases hv : db.validateMsg m.content with
    | some e => rw [hv] at hx; simp at hx
    | none =>
      rw [hv] at hx
      cases he : db.execMsg m.content with
      | some e => rw [he] at hx; simp at hx
      | none =>
        rw [he] at hx
        cases hi : db.insertMsg m.name m.checksum with
        | some e => rw [hi] at hx; simp at hx
        | none =>
          rw [hi] at hx
          simp only [List.mem_cons] at hx
          rcases hx with rfl | hx
          · exact ⟨m, List.mem_cons_self m rest, rfl⟩
          · rcases ih x hx with ⟨m2, hm2, h2⟩
            exact ⟨m2, List.mem_cons_of_mem m hm2, h2⟩

/-- Membership in the pending set: in `migrations` and name not applied. -/
theorem mem_pendingOf (history : List HistoryRow) (migs : List Migration)
    (m : Migration) :
    m ∈ pendingOf history migs ↔
      m ∈ migs ∧ m.name ∉ history.map fun r => r.name := by
  simp [pendingOf, List.mem_filter]

/-- Behavior of `execute` when nothing is pending. -/
theorem execute_eq_of_empty (db : Db) (history : List HistoryRow)
    (migs : List Migration) (opts : ExecOptions)
    (h : (pendingOf history migs).isEmpty = true) :
    MigrationExecutor.execute db history migs opts =
      ([Stmt.ensureTable, Stmt.selectApplied],
        { success := true, migrationsRun := [], error := none }) := by
  unfold MigrationExecutor.execute
  rw [if_pos h]

/-- Behavior of `execute` under `dryRun` with a nonempty pending set. -/
theorem execute_eq_of_dryRun (db : Db) (history : List HistoryRow)
    (migs : List Migration) (opts : ExecOptions)
    (h : (pendingOf history migs).isEmpty = false) (hd : opts.dryRun = true) :
    MigrationExecutor.execute db history migs opts =
      ([Stmt.ensureTable, Stmt.selectApplied],
        { success := true,
          migrationsRun := (pendingOf history migs).map fun m => m.name,
          error := none }) := by
  unfold MigrationExecutor.execute
  rw [if_neg (by simp [h]), if_pos hd]

/-- Behavior of `execute` on the real path: the transaction loop over the pending set. -/
theorem execute_eq_of_run (db : Db) (history : List HistoryRow)
    (migs : List Migration) (opts : ExecOptions)
    (h : (pendingOf history migs).isEmpty = false) (hd : opts.dryRun = false) :
    MigrationExecutor.execute db history migs opts =
      ([Stmt.ensureTable, Stmt.selectApplied]
          ++ (runPending db (pendingOf history migs)).1,
        { success := (runPending db (pendingOf history migs)).2.2.isNone,
          migrationsRun := (runPending db (pendingOf history migs)).2.1,
          error := (runPending db (pendingOf history migs)).2.2 }) := by
  unfold MigrationExecutor.execute
  rw [if_neg (by simp [h]), if_neg (by simp [hd])]

/-- C9: the executor computes the pending set solely by name.  A migration
whose name matches an already-applied history row never has a history row
inserted for it, never appears in `migrationsRun`, and every piece of DDL
the executor runs is the content of some migration whose name is *not*
applied -- all regardless of the migration's content, checksum or version. -/
theorem c9_pending_solely_by_name (db : Db) (history : List HistoryRow)
    (migs : List Migration) (opts : ExecOptions) (m : Migration)
    (hm : m ∈ migs) (happ : m.name ∈ history.map fun r => r.name) :
    (∀ c, Stmt.insertHistory m.name c ∉ executeTrace db history migs opts) ∧
      m.name ∉ (executeResult db history migs opts).migrationsRun ∧
      ∀ c, Stmt.execDDL c ∈ executeTrace db history migs opts →
        ∃ m2 ∈ migs, m2.name ∉ (history.map fun r => r.name) ∧ c = m2.content := by
  unfold executeTrace executeResult
  cases hpe : (pendingOf history migs).isEmpty with
  | true =>
    rw [execute_eq_of_empty db history migs opts hpe]
    refine ⟨?_, ?_, ?_⟩
    · intro c
      simp
    · simp
    · intro c hc
      simp at hc
  | false =>
    cases hdry : opts.dryRun with
    | true =>
      rw [execute_eq_of_dryRun db history migs opts hpe hdry]
      refine ⟨?_, ?_, ?_⟩
      · intro c
        simp
      · intro hmem
        rcases List.mem_map.mp hmem with ⟨m2, hm2, hname⟩
        exact ((mem_pendingOf history migs m2).mp hm2).2 (hname ▸ happ)
      · intro c hc
        simp at hc
    | false =>
      rw [execute_eq_of_run db history migs opts hpe hdry]
      refine ⟨?_, ?_, ?_⟩
      · intro c hc
        simp only [List.cons_append, List.nil_append, List.mem_cons] at hc
        rcases hc with hc | hc | hc
        · cases hc
        · cases hc
        · rcases runPending_trace_shape db (pendingOf history migs)
              (Stmt.insertHistory m.name c) hc with h | ⟨m2, hm2, h2⟩
          · rcases h with h | h | h <;> cases h
          · rcases h2 with h2 | h2 | h2
            · cases h2
            · cases h2
            · have hn : m.name = m2.name := by
                injection h2
              exact ((mem_pendingOf history migs m2).mp hm2).2 (hn ▸ happ)
      · intro hmem
        rcases runPending_runs_names db (pendingOf history migs) m.name hmem with
          ⟨m2, hm2, h2⟩
        exact ((mem_pendingOf history migs m2).mp hm2).2 (h2 ▸ happ)
      · intro c hc
        simp only [List.cons_append, List.nil_append, List.mem_cons] at hc
        rcases hc with hc | hc | hc
        · cases hc
        · cases hc
        · rcases runPending_trace_shape db (pendingOf history migs)
              (Stmt.execDDL c) hc with h | ⟨m2, hm2, h2⟩
          · rcases h with h | h | h <;> cases h
          · rcases h2 with h2 | h2 | h2
            · cases h2
            · have hcm : c = m2.content := by
                injection h2
              have hp := (mem_pendingOf history migs m2).mp hm2
              exact ⟨m2, hp.1, hp.2, hcm⟩
            · cases h2

/-- Witness for `c9_pending_solely_by_name`: migration `001_init` is in the
history (with a different checksum, even) and is never re-run. -/
theorem c9_witness :
    ((Migration.mk "001_init" "1" "CREATE TABLE a (i INTEGER)" "newsum"
        "migrations/001_init.sql") ∈
      [Migration.mk "001_init" "1" "CREATE TABLE a (i INTEGER)" "newsum"
        "migrations/001_init.sql",
       Migration.mk "002_more" "2" "CREATE TABLE b (i INTEGER)" "sum2"
        "migrations/002_more.sql"]) ∧
      ("001_init" ∉ (executeResult (Db.mk (fun _ => none) (fun _ => none)
          (fun _ _ => none))
        [HistoryRow.mk "001_init" "oldsum" 1]
        [Migration.mk "001_init" "1" "CREATE TABLE a (i INTEGER)" "newsum"
          "migrations/001_init.sql",
         Migration.mk "002_more" "2" "CREATE TABLE b (i INTEGER)" "sum2"
          "migrations/002_more.sql"]
        (ExecOptions.mk false false)).migrationsRun) :=
  ⟨by decide,
    (c9_pending_solely_by_name (Db.mk (fun _ => none) (fun _ => none)
        (fun _ _ => none))
      [HistoryRow.mk "001_init" "oldsum" 1]
      [Migration.mk "001_init" "1" "CREATE TABLE a (i INTEGER)" "newsum"
        "migrations/001_init.sql",
       Migration.mk "002_more" "2" "CREATE TABLE b (i INTEGER)" "sum2"
        "migrations/002_more.sql"]
      (ExecOptions.mk false false)
      (Migration.mk "001_init" "1" "CREATE TABLE a (i INTEGER)" "newsum"
        "migrations/001_init.sql")
      (by decide) (by decide)).2.1⟩

/-- C10, as stated, is false in one clause: under `dryRun` the executor
issues, besides the idempotent history-table bootstrap, also the `SELECT`
of the applied migrations (executor.ts line 39 runs before the dry-run
branch at line 50).  At a concrete dry run the trace is
`[ensureTable, selectApplied]`, so "the only database statement it may run
is the bootstrap" fails. -/
theorem c10_counterexample :
    ¬ ∀ s ∈ executeTrace
        (Db.mk (fun _ => none) (fun _ => none) (fun _ _ => none)) []
        [Migration.mk "001_init" "1" "CREATE TABLE a (i INTEGER)" "sum1"
          "migrations/001_init.sql"]
        (ExecOptions.mk true false), s = Stmt.ensureTable := by
  intro h
  exact absurd (h Stmt.selectApplied (by decide)) (by decide)

/-- C10 amended: under `dryRun` the executor issues exactly the idempotent
history-table bootstrap and the read-only select of applied migrations --
in particular no BEGIN, no migration DDL and no history INSERT -- and
returns success with `migrationsRun` the names of the pending migrations in
order. -/
theorem c10_dry_run (db : Db) (history : List HistoryRow)
    (migs : List Migration) (opts : ExecOptions) (hd : opts.dryRun = true) :
    executeTrace db history migs opts = [Stmt.ensureTable, Stmt.selectApplied] ∧
      (executeResult db history migs opts).success = true ∧
      (executeResult db history migs opts).migrationsRun
        = (pendingOf history migs).map (fun m => m.name) ∧
      (executeResult db history migs opts).error = none := by
  unfold executeTrace executeResult
  cases hpe : (pendingOf history migs).isEmpty with
  | true =>
    rw [execute_eq_of_empty db history migs opts hpe]
    have hnil : pendingOf history migs = [] := by
      simpa [List.isEmpty_iff] using hpe
    simp [hnil]
  | false =>
    rw [execute_eq_of_dryRun db history migs opts hpe hd]
    exact ⟨rfl, rfl, rfl, rfl⟩

/-- Witness for `c10_dry_run` at a concrete dry run. -/
theorem c10_dry_run_witness :
    (ExecOptions.mk true false).dryRun = true ∧
      executeTrace (Db.mk (fun _ => none) (fun _ => none) (fun _ _ => none))
          [] [Migration.mk "001_init" "1" "CREATE TABLE a (i INTEGER)" "sum1"
            "migrations/001_init.sql"]
          (ExecOptions.mk true false)
        = [Stmt.ensureTable, Stmt.selectApplied] :=
  ⟨rfl,
    (c10_dry_run (Db.mk (fun _ => none) (fun _ => none) (fun _ _ => none))
      [] [Migration.mk "001_init" "1" "CREATE TABLE a (i INTEGER)" "sum1"
        "migrations/001_init.sql"]
      (ExecOptions.mk true false) rfl).1⟩

/-- C1, as stated, is false: `execute` performs no drift checks at all.
Three concrete drift scenarios, each of which the claim requires to fail
with a fatal drift error, all succeed (the `force` option is never even
read by the code):
1. checksum mismatch -- the file for applied migration `001_init` carries
   checksum `newsum` while the history row records `oldsum`; `execute`
   succeeds and silently skips it;
2. out-of-order -- pending migration `001_a` has version 1 ≤ the maximum
   applied version 2; `execute` runs it anyway and succeeds;
3. missing file -- history row `001_gone` has no file on disk; `execute`
   succeeds. -/
theorem c1_counterexample :
    ((executeResult (Db.mk (fun _ => none) (fun _ => none) (fun _ _ => none))
        [HistoryRow.mk "001_init" "oldsum" 1]
        [Migration.mk "001_init" "1" "CREATE TABLE a (i INTEGER)" "newsum"
          "migrations/001_init.sql"]
        (ExecOptions.mk false false)).success = true ∧
      (executeResult (Db.mk (fun _ => none) (fun _ => none) (fun _ _ => none))
        [HistoryRow.mk "001_init" "oldsum" 1]
        [Migration.mk "001_init" "1" "CREATE TABLE a (i INTEGER)" "newsum"
          "migrations/001_init.sql"]
        (ExecOptions.mk false false)).migrationsRun = []) ∧
    ((executeResult (Db.mk (fun _ => none) (fun _ => none) (fun _ _ => none))
        [HistoryRow.mk "002_b" "sum2" 2]
        [Migration.mk "001_a" "1" "CREATE TABLE a (i INTEGER)" "sum1"
          "migrations/001_a.sql"]
        (ExecOptions.mk false false)).success = true ∧
      (executeResult (Db.mk (fun _ => none) (fun _ => none) (fun _ _ => none))
        [HistoryRow.mk "002_b" "sum2" 2]
        [Migration.mk "001_a" "1" "CREATE TABLE a (i INTEGER)" "sum1"
          "migrations/001_a.sql"]
        (ExecOptions.mk false false)).migrationsRun = ["001_a"]) ∧
    (executeResult (Db.mk (fun _ => none) (fun _ => none) (fun _ _ => none))
        [HistoryRow.mk "001_gone" "s" 1] []
        (ExecOptions.mk false false)).success = true := by
  refine ⟨⟨?_, ?_⟩, ⟨?_, ?_⟩, ?_⟩ <;> rfl

/-- The pending set depends on the history only through its names. -/
theorem pendingOf_congr_names (h1 h2 : List HistoryRow) (migs : List Migration)
    (h : (h1.map fun r => r.name) = h2.map fun r => r.name) :
    pendingOf h1 migs = pendingOf h2 migs := by
  unfold pendingOf
  rw [h]

/-- Rewriting every migration's version commutes with taking the pending
set (`pendingOf` only reads names). -/
theorem pendingOf_map_version (history : List HistoryRow)
    (migs : List Migration) (g : Migration → String) :
    pendingOf history (migs.map fun m =>
        Migration.mk m.name (g m) m.content m.checksum m.path)
      = (pendingOf history migs).map fun m =>
          Migration.mk m.name (g m) m.content m.checksum m.path := by
  unfold pendingOf
  rw [List.filter_map]
  rfl

/-- The loop `runPending` never reads the version field. -/
theorem runPending_map_version (db : Db) (g : Migration → String) :
    ∀ l : List Migration,
      runPending db (l.map fun m =>
          Migration.mk m.name (g m) m.content m.checksum m.path)
        = runPending db l := by
  intro l
  induction l with
  | nil => rfl
  | cons m rest ih =>
    simp only [List.map_cons, runPending, ih]

/-- C1 amended: `execute` performs no drift checks whatsoever.  The pending
set is `disk − history` computed by name alone, and the whole outcome
(trace and result) is invariant under arbitrarily rewriting the checksums
recorded in the history rows and the version fields of the migrations on
disk: checksum mismatches and out-of-order versions are never detected,
never fatal, never even warned about, and the apply simply proceeds. -/
theorem c1_no_drift_checks (db : Db) (history : List HistoryRow)
    (migs : List Migration) (opts : ExecOptions)
    (f : HistoryRow → String) (g : Migration → String) :
    MigrationExecutor.execute db
        (history.map fun r => HistoryRow.mk r.name (f r) r.appliedAt)
        migs opts
      = MigrationExecutor.execute db history migs opts ∧
    MigrationExecutor.execute db history
        (migs.map fun m => Migration.mk m.name (g m) m.content m.checksum m.path)
        opts
      = MigrationExecutor.execute db history migs opts := by
  constructor
  · have hp : pendingOf (history.map fun r => HistoryRow.mk r.name (f r) r.appliedAt)
        migs = pendingOf history migs := by
      apply pendingOf_congr_names
      rw [List.map_map]
      rfl
    unfold MigrationExecutor.execute
    rw [hp]
  · have hp := pendingOf_map_version history migs g
    unfold MigrationExecutor.execute
    rw [hp]
    have h1 : ((pendingOf history migs).map fun m =>
        Migration.mk m.name (g m) m.content m.checksum m.path).isEmpty
        = (pendingOf history migs).isEmpty := by
      cases pendingOf history migs <;> rfl
    have h2 : (((pendingOf history migs).map fun m =>
        Migration.mk m.name (g m) m.content m.checksum m.path).map
          fun m => m.name) = (pendingOf history migs).map fun m => m.name := by
      rw [List.map_map]
      rfl
    have h3 := runPending_map_version db g (pendingOf history migs)
    simp only [h1, h2, h3]

/-- C5, as stated, is false: at a concrete apply the executor runs
migration DDL, and at a concrete rollback it deletes a history row, while
neither trace contains any advisory-lock acquisition (there is no
`pg_advisory_lock` call anywhere in the executor). -/
theorem c5_counterexample :
    (Stmt.execDDL "CREATE TABLE a (i INTEGER)" ∈ executeTrace
        (Db.mk (fun _ => none) (fun _ => none) (fun _ _ => none)) []
        [Migration.mk "001_a" "1" "CREATE TABLE a (i INTEGER)" "sum1"
          "migrations/001_a.sql"]
        (ExecOptions.mk false false)) ∧
      (executeTrace
        (Db.mk (fun _ => none) (fun _ => none) (fun _ _ => none)) []
        [Migration.mk "001_a" "1" "CREATE TABLE a (i INTEGER)" "sum1"
          "migrations/001_a.sql"]
        (ExecOptions.mk false false)).all (fun s => ! isAdvisoryLock s) = true ∧
      (Stmt.deleteHistory "001_a" ∈ rollbackTrace [HistoryRow.mk "001_a" "s" 1] 1) ∧
      (rollbackTrace [HistoryRow.mk "001_a" "s" 1] 1).all
        (fun s => ! isAdvisoryLock s) = true := by
  refine ⟨by decide, by decide, by decide, by decide⟩

/-- C5 amended: no advisory lock exists.  Neither `execute` nor `rollback`
ever issues an advisory-lock statement, on any input: migration DDL runs
and history rows are deleted with no cross-process lock held, and no
lock-busy error can arise. -/
theorem c5_no_advisory_lock (db : Db) (history : List HistoryRow)
    (migs : List Migration) (opts : ExecOptions)
    (history2 : List HistoryRow) (count : Nat) :
    (executeTrace db history migs opts).all (fun s => ! isAdvisoryLock s) = true ∧
      (rollbackTrace history2 count).all (fun s => ! isAdvisoryLock s) = true := by
  constructor
  · rw [List.all_eq_true]
    intro s hs
    unfold executeTrace at hs
    cases hpe : (pendingOf history migs).isEmpty with
    | true =>
      rw [execute_eq_of_empty db history migs opts hpe] at hs
      rcases List.mem_cons.mp hs with rfl | hs2
      · rfl
      · rcases List.mem_cons.mp hs2 with rfl | hs3
        · rfl
        · cases hs3
    | false =>
      cases hdry : opts.dryRun with
      | true =>
        rw [execute_eq_of_dryRun db history migs opts hpe hdry] at hs
        rcases List.mem_cons.mp hs with rfl | hs2
        · rfl
        · rcases List.mem_cons.mp hs2 with rfl | hs3
          · rfl
          · cases hs3
      | false =>
        rw [execute_eq_of_run db history migs opts hpe hdry] at hs
        simp only [List.cons_append, List.nil_append, List.mem_cons] at hs
        rcases hs with rfl | rfl | hs3
        · rfl
        · rfl
        · rcases runPending_trace_shape db (pendingOf history migs) s hs3 with
            h | ⟨m2, _, h2⟩
          · rcases h with rfl | rfl | rfl <;> rfl
          · rcases h2 with rfl | rfl | rfl <;> rfl
  · rw [List.all_eq_true]
    intro s hs
    unfold rollbackTrace MigrationExecutor.rollback at hs
    simp only [List.cons_append, List.nil_append, List.mem_cons] at hs
    rcases hs with rfl | rfl | hs3
    · rfl
    · rfl
    · rcases List.mem_map.mp hs3 with ⟨n, _, rfl⟩
      rfl

/-- C4, as stated, is false: rolling back one migration deletes the newest
history row (`002_b`) with no transaction (`BEGIN` never appears) and no
down-migration DDL execution -- the executor never reads down files and has
no strict mode; it deletes the ledger row unconditionally. -/
theorem c4_counterexample :
    rollbackTrace [HistoryRow.mk "001_a" "c1" 1, HistoryRow.mk "002_b" "c2" 2] 1
        = [Stmt.ensureTable, Stmt.selectLastApplied 1,
           Stmt.deleteHistory "002_b"] ∧
      Stmt.begin ∉ rollbackTrace
        [HistoryRow.mk "001_a" "c1" 1, HistoryRow.mk "002_b" "c2" 2] 1 ∧
      (rollbackTrace [HistoryRow.mk "001_a" "c1" 1,
          HistoryRow.mk "002_b" "c2" 2] 1).all (fun s => ! isExecDDL s) = true ∧
      rollbackFinal [HistoryRow.mk "001_a" "c1" 1,
          HistoryRow.mk "002_b" "c2" 2] 1 = [HistoryRow.mk "001_a" "c1" 1] := by
  refine ⟨by decide, by decide, by decide, by decide⟩

/-- Deleting the listed names one `DELETE` at a time equals one filter. -/
theorem foldl_delete_eq_filter (names : List String) (h : List HistoryRow) :
    names.foldl (fun acc n => acc.filter fun r => ! (r.name == n)) h
      = h.filter fun r => ! names.contains r.name := by
  induction names generalizing h with
  | nil => simp
  | cons n ns ih =>
    simp only [List.foldl_cons]
    rw [ih, List.filter_filter]
    apply List.filter_congr
    intro r _
    rw [List.contains_cons, Bool.not_or]
    cases hrn : r.name == n <;> cases hc : ns.contains r.name <;> rfl

/-- C4 amended: `rollback(n)` selects the last `n` history rows by
`applied_at` descending (the model sorts the table; sortedness and
permutation proved below), reverses their names, and deletes each history
row unconditionally -- inside no transaction, executing no down-migration
DDL, consulting no down files and no strict mode -- then reports success
with the deleted names. -/
theorem c4_rollback_deletes_only (history : List HistoryRow) (count : Nat) :
    rollbackTrace history count
        = [Stmt.ensureTable, Stmt.selectLastApplied count]
            ++ (rollbackNames history count).map Stmt.deleteHistory ∧
      (rollbackTrace history count).all
          (fun s => ! isExecDDL s && ! (s == Stmt.begin)) = true ∧
      rollbackResult history count
        = { success := true, migrationsRun := rollbackNames history count,
            error := none } ∧
      rollbackFinal history count
        = history.filter
            (fun r => ! (rollbackNames history count).contains r.name) ∧
      List.Sorted (fun a b => b.appliedAt ≤ a.appliedAt) (sortDesc history) ∧
      (sortDesc history).Perm history := by
  refine ⟨rfl, ?_, rfl, ?_, ?_, ?_⟩
  · rw [List.all_eq_true]
    intro s hs
    unfold rollbackTrace MigrationExecutor.rollback at hs
    simp only [List.cons_append, List.nil_append, List.mem_cons] at hs
    rcases hs with rfl | rfl | hs3
    · rfl
    · rfl
    · rcases List.mem_map.mp hs3 with ⟨n, _, rfl⟩
      rfl
  · unfold rollbackFinal MigrationExecutor.rollback
    exact foldl_delete_eq_filter (rollbackNames history count) history
  · unfold sortDesc
    haveI : IsTotal HistoryRow (fun a b => b.appliedAt ≤ a.appliedAt) :=
      ⟨fun a b => le_total b.appliedAt a.appliedAt⟩
    haveI : IsTrans HistoryRow (fun a b => b.appliedAt ≤ a.appliedAt) :=
      ⟨fun _ _ _ hab hbc => le_trans hbc hab⟩
    exact List.sorted_insertionSort _ history
  · exact List.perm_insertionSort _ history

/-- Evaluating `runPending` on a pending list whose first rejected migration is `bad`:
the trace is one complete BEGIN..COMMIT block per accepted migration before
`bad`, then `bad`'s aborted block ending in ROLLBACK; the run names are
exactly the accepted prefix; the error is `bad`'s wrapped error; and
nothing after `bad` is touched. -/
theorem runPending_eq_of_firstFail (db : Db) (good : List Migration)
    (bad : Migration) (rest : List Migration)
    (hgood : ∀ m ∈ good, migAccepted db m = true)
    (hbad : migAccepted db bad = false) :
    runPending db (good ++ bad :: rest)
      = (successBlocks good ++ failBlock db bad,
          good.map (fun m => m.name), failErr db bad) := by
  induction good with
  | nil =>
    simp only [List.nil_append, List.map_nil, successBlocks]
    unfold migAccepted at hbad
    cases hv : db.validateMsg bad.content with
    | some e =>
      simp only [runPending, hv, failBlock, failErr]
    | none =>
      cases he : db.execMsg bad.content with
      | some e =>
        simp only [runPending, hv, he, failBlock, failErr]
      | none =>
        cases hi : db.insertMsg bad.name bad.checksum with
        | some e =>
          simp only [runPending, hv, he, hi, failBlock, failErr]
        | none =>
          rw [hv, he, hi] at hbad
          simp at hbad
  | cons m good2 ih =>
    have hm := hgood m (List.mem_cons_self m good2)
    unfold migAccepted at hm
    simp only [Bool.and_eq_true, Option.isNone_iff_eq_none] at hm
    have ih2 := ih fun m2 hm2 => hgood m2 (List.mem_cons_of_mem m hm2)
    have hc : (m :: good2) ++ bad :: rest = m :: (good2 ++ bad :: rest) := rfl
    rw [hc]
    simp only [runPending, hm.1.1, hm.1.2, hm.2, ih2, successBlocks,
      successBlock, List.map_cons, List.cons_append, List.nil_append,
      List.append_assoc]

/-- A rejected migration's error is the wrapped `Failed to apply` message
carrying the migration's name. -/
theorem failErr_of_not_accepted (db : Db) (m : Migration)
    (h : migAccepted db m = false) :
    ∃ inner, failErr db m
      = some ("Failed to apply " ++ m.name ++ ": " ++ inner) := by
  unfold migAccepted at h
  unfold failErr
  cases hv : db.validateMsg m.content with
  | some e => exact ⟨"Invalid SQL: " ++ e, rfl⟩
  | none =>
    cases he : db.execMsg m.content with
    | some e => exact ⟨e, rfl⟩
    | none =>
      cases hi : db.insertMsg m.name m.checksum with
      | some e => exact ⟨e, rfl⟩
      | none =>
        rw [hv, he, hi] at h
        simp at h

/-- Replaying an accepted migration's transaction block commits exactly its
history row. -/
theorem replay_successBlock (h : List HistoryRow) (m : Migration)
    (tr : List Stmt) :
    replay h [] (successBlock m ++ tr)
      = replay (h ++ [HistoryRow.mk m.name m.checksum 0]) [] tr := by
  simp [successBlock, replay]

/-- Replaying the accepted prefix commits one row per migration, in order. -/
theorem replay_successBlocks (good : List Migration) (h : List HistoryRow)
    (tr : List Stmt) :
    replay h [] (successBlocks good ++ tr)
      = replay (h ++ good.map fun m => HistoryRow.mk m.name m.checksum 0) [] tr := by
  induction good generalizing h with
  | nil => simp [successBlocks]
  | cons m good2 ih =>
    rw [successBlocks, List.append_assoc, replay_successBlock, ih,
      List.map_cons, List.append_assoc]
    rfl

/-- Replaying a rejected migration's aborted block leaves the table as it
was: the ROLLBACK discards the buffered work. -/
theorem replay_failBlock (db : Db) (bad : Migration) (h : List HistoryRow) :
    replay h [] (failBlock db bad) = h := by
  unfold failBlock
  cases db.validateMsg bad.content with
  | some e => simp [replay]
  | none =>
    cases db.execMsg bad.content with
    | some e => simp [replay]
    | none =>
      cases db.insertMsg bad.name bad.checksum with
      | some e => simp [replay]
      | none => simp [replay]

/-- C2: one transaction per migration, stop at the first failure.  If the
pending set splits as `good ++ bad :: rest` where the database accepts
every query of the `good` prefix and rejects one of `bad`'s, then the trace
is the bootstrap and read followed by one complete BEGIN / validate /
execute / insert / COMMIT block per `good` migration and `bad`'s aborted
block ending in ROLLBACK; nothing of `rest` is attempted; the result is a
failure carrying `bad`'s name in its error; `migrationsRun` lists exactly
the committed prefix; and replaying the trace against the history table
keeps every previously applied row plus one row per committed migration. -/
theorem c2_transaction_per_migration (db : Db) (history : List HistoryRow)
    (migs : List Migration) (opts : ExecOptions) (good : List Migration)
    (bad : Migration) (rest : List Migration)
    (hdry : opts.dryRun = false)
    (hsplit : pendingOf history migs = good ++ bad :: rest)
    (hgood : ∀ m ∈ good, migAccepted db m = true)
    (hbad : migAccepted db bad = false) :
    executeTrace db history migs opts
        = [Stmt.ensureTable, Stmt.selectApplied]
            ++ (successBlocks good ++ failBlock db bad) ∧
      (executeResult db history migs opts).success = false ∧
      (executeResult db history migs opts).migrationsRun
        = good.map (fun m => m.name) ∧
      (∃ inner, (executeResult db history migs opts).error
        = some ("Failed to apply " ++ bad.name ++ ": " ++ inner)) ∧
      replay history [] (executeTrace db history migs opts)
        = history ++ good.map fun m => HistoryRow.mk m.name m.checksum 0 := by
  have hpe : (pendingOf history migs).isEmpty = false := by
    rw [hsplit]
    cases good <;> rfl
  have hrun := runPending_eq_of_firstFail db good bad rest hgood hbad
  have hex := execute_eq_of_run db history migs opts hpe hdry
  rw [hsplit, hrun] at hex
  have htr : executeTrace db history migs opts
      = [Stmt.ensureTable, Stmt.selectApplied]
          ++ (successBlocks good ++ failBlock db bad) := by
    unfold executeTrace
    rw [hex]
  have hres : executeResult db history migs opts
      = { success := (failErr db bad).isNone,
          migrationsRun := good.map (fun m => m.name),
          error := failErr db bad } := by
    unfold executeResult
    rw [hex]
  rcases failErr_of_not_accepted db bad hbad with ⟨inner, hinner⟩
  refine ⟨htr, ?_, ?_, ?_, ?_⟩
  · rw [hres, hinner]
    rfl
  · rw [hres]
  · exact ⟨inner, by rw [hres, hinner]⟩
  · rw [htr]
    have hb : replay history []
        ([Stmt.ensureTable, Stmt.selectApplied]
          ++ (successBlocks good ++ failBlock db bad))
        = replay history [] (successBlocks good ++ failBlock db bad) := by
      simp [replay]
    rw [hb, replay_successBlocks, replay_failBlock]

/-- Witness for `c2_transaction_per_migration`: three pending migrations,
the database rejects the second one's DDL, the first is committed, the
third never attempted. -/
theorem c2_witness :
    ((ExecOptions.mk false false).dryRun = false) ∧
      (pendingOf []
          [Migration.mk "001_a" "1" "CREATE TABLE a (i INTEGER)" "s1" "p1",
           Migration.mk "002_b" "2" "BOOM" "s2" "p2",
           Migration.mk "003_c" "3" "CREATE TABLE c (i INTEGER)" "s3" "p3"]
        = [Migration.mk "001_a" "1" "CREATE TABLE a (i INTEGER)" "s1" "p1"]
            ++ Migration.mk "002_b" "2" "BOOM" "s2" "p2"
              :: [Migration.mk "003_c" "3" "CREATE TABLE c (i INTEGER)" "s3" "p3"]) ∧
      (executeResult
          (Db.mk (fun _ => none)
            (fun s => if s = "BOOM" then some "syntax error" else none)
            (fun _ _ => none))
          []
          [Migration.mk "001_a" "1" "CREATE TABLE a (i INTEGER)" "s1" "p1",
           Migration.mk "002_b" "2" "BOOM" "s2" "p2",
           Migration.mk "003_c" "3" "CREATE TABLE c (i INTEGER)" "s3" "p3"]
          (ExecOptions.mk false false)).migrationsRun = ["001_a"] :=
  ⟨rfl, by decide,
    by
      have h := c2_transaction_per_migration
        (Db.mk (fun _ => none)
          (fun s => if s = "BOOM" then some "syntax error" else none)
          (fun _ _ => none))
        []
        [Migration.mk "001_a" "1" "CREATE TABLE a (i INTEGER)" "s1" "p1",
         Migration.mk "002_b" "2" "BOOM" "s2" "p2",
         Migration.mk "003_c" "3" "CREATE TABLE c (i INTEGER)" "s3" "p3"]
        (ExecOptions.mk false false)
        [Migration.mk "001_a" "1" "CREATE TABLE a (i INTEGER)" "s1" "p1"]
        (Migration.mk "002_b" "2" "BOOM" "s2" "p2")
        [Migration.mk "003_c" "3" "CREATE TABLE c (i INTEGER)" "s3" "p3"]
        rfl (by decide) (by decide) (by decide)
      rw [h.2.2.1]
      rfl⟩

end Fastsecret
